import Mathlib

/-!
Verification of the `core_components` NADAG borehole-aggregation pipeline
(`core_components/api/nadag_api.py`, `core_components/config/__init__.py`,
`core_components/utils/geo.py`) against its natural-language specification.

The Python source is shallowly embedded: pure row/column transformations become
Lean functions on lists, Python floats become rationals (`ℚ`), numeric comment
codes become integers, network calls become explicit fetch oracles passed as
arguments, and raising code returns `Except`.
-/

/- ------------------------------------------------------------------ -/
/- String helpers mirroring the Python string operations used in the  -/
/- pipeline: `str.lower()`, substring membership `in`, and `<`.        -/
/- ------------------------------------------------------------------ -/

/-- The character ranges treated as upper case by the embedding of Python's
`str.lower()`: ASCII `A`-`Z` and Latin-1 `À`-`Þ` except `×`, which covers the
Norwegian letters `Æ Ø Å` appearing in the pipeline's column names and text. -/
def isUpperRange (c : Char) : Prop :=
  (65 ≤ c.toNat ∧ c.toNat ≤ 90) ∨ (192 ≤ c.toNat ∧ c.toNat ≤ 222 ∧ c.toNat ≠ 215)

instance (c : Char) : Decidable (isUpperRange c) := by
  unfold isUpperRange
  infer_instance

/-- Lower-casing of one character: uppercase-range characters are shifted down
by 32 code points (as in the Unicode tables Python consults for this range),
all other characters are unchanged. -/
def charLower (c : Char) : Char :=
  if isUpperRange c then Char.ofNat (c.toNat + 32) else c

/-- Python's `str.lower()`: `charLower` applied characterwise. -/
def pyLower (s : String) : String := ⟨s.data.map charLower⟩

/-- Python's substring test `needle in hay` on strings, as a Boolean test on
the underlying character lists (contiguous-sublist membership). -/
def contains_sub (needle hay : List Char) : Bool := decide (needle <:+: hay)

/-- Python's lexicographic (code-point) comparison `a < b` on strings. -/
def charListLt : List Char → List Char → Bool
  | [], [] => false
  | [], _ :: _ => true
  | _ :: _, [] => false
  | a :: as, b :: bs => if a < b then true else if b < a then false else charListLt as bs

/- ------------------------------------------------------------------ -/
/- Configuration (`core_components/config/__init__.py`).               -/
/- ------------------------------------------------------------------ -/

/-- Configured quick-clay keywords `QCL_KWD` (nadag_api.py). -/
def QCL_KWD : List String := ["quick", "kvikk", "sprøbrudd"]

/-- Configured comment codes `flag_codes['hammering_starts']`. -/
def hammering_starts_codes : List String := ["11", "15", "63"]

/-- Configured comment codes `flag_codes['hammering_ends']`. -/
def hammering_ends_codes : List String := ["16", "64"]

/-- Configured comment codes `flag_codes['increased_rotation_rate_starts']`. -/
def increased_rotation_rate_starts_codes : List String := ["51"]

/-- Configured comment codes `flag_codes['increased_rotation_rate_ends']`. -/
def increased_rotation_rate_ends_codes : List String := ["52"]

/-- Configured comment codes `flag_codes['flushing_starts']`. -/
def flushing_starts_codes : List String := ["14", "63"]

/-- Configured comment codes `flag_codes['flushing_ends']`. -/
def flushing_ends_codes : List String := ["62", "64"]

/-- The fixed borehole column mapping `column_mapper_borehole` from
`config/__init__.py`, as an association list in source order. -/
def COLUMN_MAPPER_BH : List (String × String) :=
  [("anvendtlast", "penetration_force"),
   ("boretlengde", "depth"),
   ("dreiemoment", "rotation_moment"),
   ("kombinasjonsondering", "method_id"),
   ("trykksondering", "method_id"),
   ("statisksondering", "method_id"),
   ("nedpressinghastighet", "penetration_rate"),
   ("nedpressingtrykk", "qc"),
   ("friksjon", "fs"),
   ("poretrykk", "u2"),
   ("nedpressingtid", "penetration_time"),
   ("observasjonkode", "comment_code"),
   ("observasjonmerknad", "comment"),
   ("rotasjonhastighet", "rotation_rate"),
   ("slagfrekvens", "hammering_rate"),
   ("spylemengde", "flushing_flow"),
   ("spyletrykk", "flushing_pressure")]

/- ------------------------------------------------------------------ -/
/- Interval flags from comment codes (nadag_api.py:                    -/
/- `create_flagged_column`, `create_intervals_from_comments`).         -/
/- ------------------------------------------------------------------ -/

/-- A raw `comment_code` cell: missing (`NaN`/`None`), numeric (Python applies
`str(int(value))`, so the embedding carries the resulting integer), or text. -/
inductive CommentVal where
  | none
  | num (n : ℤ)
  | str (s : String)
deriving DecidableEq, Inhabited

/-- Embeds `format_comment_value` inside `create_intervals_from_comments`:
missing values become `""`, numeric values are formatted as integers,
text is kept as is. -/
def format_comment_value : CommentVal → String
  | .none => ""
  | .num n => toString n
  | .str s => s

/-- One event column of `create_intervals_from_comments`: a row marks an event
for `target_codes` when any configured code is a substring of the row's
formatted comment string. -/
def comment_marks_event (target_codes : List String) (c : CommentVal) : Bool :=
  target_codes.any fun tc => contains_sub tc.toList (format_comment_value c).toList

/-- One step of the scan in `create_flagged_column`: an end event forces the
state off (taking precedence over a simultaneous start), a start event turns
it on, otherwise the state is kept. -/
def flag_step (cur : Bool) (ev : Bool × Bool) : Bool :=
  if ev.2 then false else if ev.1 then true else cur

/-- The row-by-row scan of `create_flagged_column`, recording the running
active state at every row. `rows` holds (start-event, end-event) pairs in
index order. -/
def flag_scan : Bool → List (Bool × Bool) → List Bool
  | _, [] => []
  | cur, ev :: rest => flag_step cur ev :: flag_scan (flag_step cur ev) rest

/-- Embeds `create_flagged_column` (nadag_api.py): the scan starts with the
flag inactive. -/
def create_flagged_column (rows : List (Bool × Bool)) : List Bool :=
  flag_scan false rows

/-- Embeds the interval reconstruction of `create_intervals_from_comments`
for one flag: derive the start/end event columns from the comment codes, then
scan them into the boolean interval column. -/
def flag_column_from_comments (sc ec : List String) (comments : List CommentVal) : List Bool :=
  create_flagged_column (comments.map fun c => (comment_marks_event sc c, comment_marks_event ec c))

/-- Embeds `create_intervals_from_comments` (nadag_api.py): the three derived
interval columns (hammering, increased_rotation_rate, flushing) computed from
the comment-code column with the configured start/end code table. -/
def create_intervals_from_comments (comments : List CommentVal) :
    List Bool × List Bool × List Bool :=
  (flag_column_from_comments hammering_starts_codes hammering_ends_codes comments,
   flag_column_from_comments increased_rotation_rate_starts_codes increased_rotation_rate_ends_codes comments,
   flag_column_from_comments flushing_starts_codes flushing_ends_codes comments)

/-- The claimed interval semantics for one flag over a comment sequence:
same length; an end event at a row forces the flag off there; and from a row
with a start event and no end event, the flag stays on through every later row
up to (and excluding) the next row with an end event. -/
def interval_flag_spec (sc ec : List String) (comments : List CommentVal)
    (flags : List Bool) : Prop :=
  flags.length = comments.length ∧
  (∀ i, i < comments.length →
    comment_marks_event ec (comments.getD i .none) = true →
    flags.getD i false = false) ∧
  (∀ i k, i ≤ k → k < comments.length →
    comment_marks_event sc (comments.getD i .none) = true →
    comment_marks_event ec (comments.getD i .none) = false →
    (∀ j, i < j → j ≤ k → comment_marks_event ec (comments.getD j .none) = false) →
    flags.getD k false = true)

/- ------------------------------------------------------------------ -/
/- Concurrent link resolver (nadag_api.py: `get_async`,                -/
/- `get_href_list`).                                                   -/
/- ------------------------------------------------------------------ -/

/-- Failure of one HTTP request in the embedding: a timeout or another error
raised by the HTTP client. -/
inductive FetchErr where
  | timeout
  | transport
deriving DecidableEq

/-- A decoded JSON document as seen by `get_async`: the optional
`numberReturned` and `numberMatched` fields used for truncation detection,
and an abstract payload. -/
structure Doc where
  numberReturned : Option ℕ
  numberMatched : Option ℕ
  payload : String
deriving DecidableEq

/-- A fetch oracle standing for `client.get(href)`; the second argument is the
optional explicit `limit` query parameter (`None` on the first request). The
result is the decoded document, or the raised transport/timeout error. -/
abbrev FetchOracle := String → Option ℕ → Except FetchErr Doc

/-- Embeds the body of `get_async` for a non-null href, paired with the trace
of the requests it issues: fetch the href; if `numberReturned` and
`numberMatched` are both present and `numberReturned < numberMatched`,
re-request once with `limit = numberMatched + 1` and use that response. -/
def get_async_doc (fetch : FetchOracle) (href : String) :
    Except FetchErr Doc × List (String × Option ℕ) :=
  match fetch href Option.none with
  | .error e => (.error e, [(href, Option.none)])
  | .ok d =>
    match d.numberReturned, d.numberMatched with
    | some r, some m =>
      if r < m then (fetch href (some (m + 1)), [(href, Option.none), (href, some (m + 1))])
      else (.ok d, [(href, Option.none)])
    | _, _ => (.ok d, [(href, Option.none)])

/-- Embeds `get_async` (nadag_api.py): a null href resolves to null without
issuing any request; a non-null href is fetched with one possible truncation
retry. First component: the result; second component: the issued requests. -/
def get_async (fetch : FetchOracle) : Option String →
    Except FetchErr (Option Doc) × List (String × Option ℕ)
  | Option.none => (.ok Option.none, [])
  | some href =>
    ((get_async_doc fetch href).1.map some, (get_async_doc fetch href).2)

/-- Embeds `get_href_list` (nadag_api.py), i.e. `asyncio.gather` over
`get_async`: results are collected in input order, and the first raised
exception propagates out of the whole call (gather's default behavior,
no `return_exceptions`). -/
def get_href_list (fetch : FetchOracle) : List (Option String) →
    Except FetchErr (List (Option Doc))
  | [] => .ok []
  | h :: rest =>
    match (get_async fetch h).1 with
    | .error e => .error e
    | .ok d =>
      match get_href_list fetch rest with
      | .error e => .error e
      | .ok ds => .ok (d :: ds)

/-- A concrete document used in the concrete resolver scenarios. -/
def doc0 : Doc := ⟨Option.none, Option.none, "ok"⟩

/-- A concrete fetch oracle on which every request succeeds. -/
def fetch_all_ok : FetchOracle := fun _ _ => .ok doc0

/-- A concrete fetch oracle on which exactly the href bad times out. -/
def fetch_one_bad : FetchOracle := fun u _ =>
  if u = "bad" then .error .timeout else .ok doc0

/- ------------------------------------------------------------------ -/
/- Sample depth resolution (nadag_api.py: `_get_sample_depth`).        -/
/- ------------------------------------------------------------------ -/

/-- A cell value of the sample table as Python sees it: a numeric value
(floats embedded as rationals), the float NaN (pandas' missing-value marker,
so it also stands for null), or a text value. -/
inductive PyVal where
  | num (q : ℚ)
  | nan
  | str (s : String)
deriving DecidableEq

/-- Python's `>` between two cell values: numeric comparison (any comparison
involving NaN is false), lexicographic comparison between two strings, and a
raised TypeError for a string compared with a number or NaN. -/
def pyGT : PyVal → PyVal → Except Unit Bool
  | .num a, .num b => .ok (decide (b < a))
  | .num _, .nan => .ok false
  | .nan, .num _ => .ok false
  | .nan, .nan => .ok false
  | .str a, .str b => .ok (charListLt b.toList a.toList)
  | _, _ => .error ()

/-- Python's `==` between two cell values: equality within one type, `False`
across types and on NaN; never an error. -/
def pyEq : PyVal → PyVal → Bool
  | .num a, .num b => decide (a = b)
  | .str a, .str b => decide (a = b)
  | _, _ => false

/-- pandas' `pd.isna` on one cell value. -/
def pyIsNA : PyVal → Bool
  | .nan => true
  | _ => false

/-- Python's `+` between two cell values: numeric addition (NaN absorbs),
string concatenation, and a raised TypeError on mixed string/number
operands. -/
def pyAdd : PyVal → PyVal → Except Unit PyVal
  | .num a, .num b => .ok (.num (a + b))
  | .num _, .nan => .ok .nan
  | .nan, .num _ => .ok .nan
  | .nan, .nan => .ok .nan
  | .str a, .str b => .ok (.str (a ++ b))
  | _, _ => .error ()

/-- Python's `/ 2` on one cell value: numeric halving (NaN stays NaN), a
raised TypeError on a string. -/
def pyHalf : PyVal → Except Unit PyVal
  | .num a => .ok (.num (a / 2))
  | .nan => .ok .nan
  | .str _ => .error ()

/-- Embeds `_get_sample_depth` (nadag_api.py). Only the final midpoint
computation is inside `try/except TypeError`; a TypeError raised by the first
comparison propagates out. -/
def _get_sample_depth (depth_top depth_base : PyVal) : Except Unit PyVal := do
  let c1 ← pyGT depth_top depth_base
  if c1 && pyEq depth_base (.num 0) then
    pure depth_top
  else if pyIsNA depth_base && !pyIsNA depth_top then
    pure depth_top
  else if pyEq depth_top depth_base then
    pure depth_top
  else
    match pyAdd depth_top depth_base >>= pyHalf with
    | .ok v => pure v
    | .error _ => pure .nan

/- ------------------------------------------------------------------ -/
/- Soil composition classification (nadag_api.py: `_clf_aggr`,         -/
/- `_clf_single`, and the lower-casing `get_samples` applies first).   -/
/- ------------------------------------------------------------------ -/

/-- Embeds `_clf_aggr` (nadag_api.py) on the values of one group: take the
distinct values (pandas `unique`); return nothing when every one is the
literal `"nan"` or `"none"`; otherwise quick_clay when some value contains a
configured quick-clay keyword after lower-casing; otherwise other. -/
def _clf_aggr (values : List String) : String :=
  let u := values.dedup
  if u.all (fun vv => vv == "nan" || vv == "none") then "nothing"
  else if u.any (fun xx => QCL_KWD.any fun kwd => contains_sub kwd.toList (pyLower xx).toList)
    then "quick_clay"
  else "other"

/-- Embeds `_clf_single` (nadag_api.py): the per-row variant of the
classification. -/
def _clf_single (x : String) : String :=
  if x == "nan" || x == "none" then "nothing"
  else if QCL_KWD.any fun kwd => contains_sub kwd.toList (pyLower x).toList then "quick_clay"
  else "other"

/-- The classification of a group of raw layer-composition text values as the
pipeline performs it: `get_samples` first maps every value through
`str(x).lower()`, and `aggregate_samples` then applies `_clf_aggr` to the
group's values. -/
def classify_layer_composition (raws : List String) : String :=
  _clf_aggr (raws.map pyLower)

/- ------------------------------------------------------------------ -/
/- Sounding normalization (nadag_api.py: `get_soundings`).             -/
/- ------------------------------------------------------------------ -/

/-- Renaming of one column label through `column_mapper_borehole` (pandas
`rename`): the first matching key applies, unmatched labels are unchanged. -/
def rename_bh_col (c : String) : String :=
  match COLUMN_MAPPER_BH.find? (fun q => q.1 == c) with
  | some p => p.2
  | Option.none => c

/-- The column labels produced by the try block of `get_soundings` on a
non-empty document: a `observasjonKode` column is added when absent, every
label is lower-cased, labels are renamed through the mapper, and
`sort_values(by="depth")` raises a caught KeyError unless a depth column
exists after renaming. Sorting and `reset_index` do not change the columns. -/
def normalize_sounding_columns (cols : List String) : Except Unit (List String) :=
  let cols1 := if "observasjonKode" ∈ cols then cols else cols ++ ["observasjonKode"]
  let cols2 := cols1.map pyLower
  let cols3 := cols2.map rename_bh_col
  if "depth" ∈ cols3 then .ok cols3 else .error ()

/-- The three derived interval-flag columns `get_soundings` assigns after the
try block. -/
def interval_flag_cols : List String := ["hammering", "increased_rotation_rate", "flushing"]

/-- The pandas assignment `new_elem[[flags]] = ...` on the column set:
existing labels are overwritten in place, missing ones are appended. -/
def add_flag_cols (cols : List String) : List String :=
  cols ++ interval_flag_cols.filter (fun c => decide (c ∉ cols))

/-- The columns of `pd.DataFrame(columns=COLUMN_MAPPER_BH.values())` used for
null and empty documents (`dict.values()` repeats the method_id label). -/
def empty_mapper_cols : List String := COLUMN_MAPPER_BH.map Prod.snd

/-- A raw observation document in the per-document loop of `get_soundings`,
reduced to what the column-level embedding needs: the column labels of its
properties frame and the row count. -/
structure RawDoc where
  propCols : List String
  nRows : ℕ
deriving DecidableEq

/-- The cpt branch copies the document-level alpha cone factor onto a column
before the try block. -/
def with_alpha (method : String) (cols : List String) : List String :=
  if method = "cpt" then (if "alpha" ∈ cols then cols else cols ++ ["alpha"]) else cols

/-- The Python error the per-document loop can raise: the NameError hit when
a caught normalization failure leaves the loop variable `new_elem` unbound. -/
inductive LoopErr where
  | nameError
deriving DecidableEq

/-- One iteration of the per-document loop of `get_soundings` at column level.
`prev` is the value of the loop variable `new_elem` left by the previous
iteration (`none` before its first assignment). A null or empty document
yields the empty mapper schema without flag columns. On a non-empty document,
the try block normalizes the columns and the flag columns are then assigned;
if the try block raises (caught and printed), the flag assignment reads the
stale `new_elem` — the previous iteration's table, or NameError if none. -/
def get_soundings_step (method : String) (prev : Option (List String))
    (d : Option RawDoc) : Except LoopErr (List String) :=
  match d with
  | Option.none => .ok empty_mapper_cols
  | some doc =>
    if doc.nRows = 0 then .ok empty_mapper_cols
    else
      match normalize_sounding_columns (with_alpha method doc.propCols) with
      | .ok c => .ok (add_flag_cols c)
      | .error _ =>
        match prev with
        | Option.none => .error .nameError
        | some t => .ok (add_flag_cols t)

/-- The per-document loop of `get_soundings` over the resolved documents,
threading the loop variable `new_elem` between iterations. -/
def get_soundings_loop (method : String) (prev : Option (List String)) :
    List (Option RawDoc) → Except LoopErr (List (List String))
  | [] => .ok []
  | d :: rest =>
    match get_soundings_step method prev d with
    | .error e => .error e
    | .ok t =>
      match get_soundings_loop method (some t) rest with
      | .error e => .error e
      | .ok ts => .ok (t :: ts)

/-- Embeds the normalization loop of `get_soundings` (nadag_api.py), column
level: one table of column labels per resolved document. -/
def get_soundings_tables (method : String) (docs : List (Option RawDoc)) :
    Except LoopErr (List (List String)) :=
  get_soundings_loop method Option.none docs

/- ------------------------------------------------------------------ -/
/- Grid partitioning for large areas (utils/geo.py: `split_bbox`;      -/
/- nadag_api.py: `get_data_big_areas`).                                -/
/- ------------------------------------------------------------------ -/

/-- A bounding box (minx, miny, maxx, maxy) with rational coordinates. -/
structure BBox where
  minx : ℚ
  miny : ℚ
  maxx : ℚ
  maxy : ℚ
deriving DecidableEq

/-- Embeds `split_bbox` (utils/geo.py): the n_cols times n_rows grid of equal
cells tiling the box, listed with the outer loop over columns as in the
source. -/
def split_bbox (bbox : BBox) (n_rows n_cols : ℕ) : List BBox :=
  (List.range n_cols).flatMap fun i : ℕ =>
    (List.range n_rows).map fun j : ℕ =>
      ⟨bbox.minx + (i : ℚ) * ((bbox.maxx - bbox.minx) / n_cols),
       bbox.miny + (j : ℚ) * ((bbox.maxy - bbox.miny) / n_rows),
       bbox.minx + (i : ℚ) * ((bbox.maxx - bbox.minx) / n_cols) + (bbox.maxx - bbox.minx) / n_cols,
       bbox.miny + (j : ℚ) * ((bbox.maxy - bbox.miny) / n_rows) + (bbox.maxy - bbox.miny) / n_rows⟩

/-- Embeds the grid-dimension computation of `get_data_big_areas`
(nadag_api.py): Python floor division of each axis extent by
`max_dist_query`, clamped below by 1. Returns (n_cols, n_rows). -/
def big_area_dims (bounds : BBox) (max_dist_query : ℚ) : ℕ × ℕ :=
  ((max ⌊(bounds.maxx - bounds.minx) / max_dist_query⌋ 1).toNat,
   (max ⌊(bounds.maxy - bounds.miny) / max_dist_query⌋ 1).toNat)

/-- The sub-extent grid `get_data_big_areas` iterates over:
`split_bbox(bbox, n_rows, n_cols)` with the computed dimensions. -/
def get_data_big_areas_cells (bounds : BBox) (max_dist_query : ℚ) : List BBox :=
  split_bbox bounds (big_area_dims bounds max_dist_query).2
    (big_area_dims bounds max_dist_query).1

/- ------------------------------------------------------------------ -/
/- Paginated fetcher (nadag_api.py: `get_collection`).                 -/
/- ------------------------------------------------------------------ -/

/-- One page response of the feature-collection endpoint: its feature list
(features abstracted to identifiers) and its links as (rel, href) pairs. -/
structure Page where
  features : List String
  links : List (String × String)

/-- The next-page link of a response, as `get_collection` selects it: the
href of the first link whose rel is next, if any. -/
def next_href (p : Page) : Option String :=
  (p.links.find? (fun l => l.1 == "next")).map (fun l => l.2)

/-- A page oracle standing for `requests.get(url, params)`: the Boolean is
true when the query parameters (spatial filter, crs, limit) are attached,
which `get_collection` does only on its first request. -/
abbrev PageOracle := String → Bool → Page

/-- Embeds the pagination loop of `get_collection` (nadag_api.py): fetch the
current URL, follow the next link with no parameters while one is present,
and accumulate the feature lists in request order. `fuel` bounds the number
of requests (the Python loop is unbounded); `none` means the link chain did
not close within `fuel` requests. -/
def get_collection_loop (fetch : PageOracle) : ℕ → String → Bool → Option (List String)
  | 0, _, _ => Option.none
  | fuel + 1, url, first =>
    match next_href (fetch url first) with
    | some url2 =>
      match get_collection_loop fetch fuel url2 false with
      | some fs => some ((fetch url first).features ++ fs)
      | Option.none => Option.none
    | Option.none => some (fetch url first).features

/-- Embeds `get_collection` (nadag_api.py): the loop starts at the collection
URL with the filter parameters attached. -/
def get_collection (fetch : PageOracle) (fuel : ℕ) (url : String) : Option (List String) :=
  get_collection_loop fetch fuel url true

/-- The request chain described by the claim: a nonempty list of pages whose
first element is fetched from the start URL with parameters, each follow-up
is fetched from the previous page's next link with no parameters, and exactly
the last page lacks a next link. -/
def IsPageChain (fetch : PageOracle) : String → Bool → List Page → Prop
  | _, _, [] => False
  | url, first, p :: rest =>
    p = fetch url first ∧
    (match rest with
     | [] => next_href p = Option.none
     | _ :: _ => ∃ u, next_href p = some u ∧ IsPageChain fetch u false rest)

/-- A concrete page oracle whose every response has no features and no
links. -/
def page_oracle_empty : PageOracle := fun _ _ => ⟨[], []⟩

/- ------------------------------------------------------------------ -/
/- Supporting lemmas.                                                  -/
/- ------------------------------------------------------------------ -/

theorem char_ofNat_toNat (n : ℕ) (h : n.isValidChar) : (Char.ofNat n).toNat = n := by
  simp only [Char.ofNat, dif_pos h, Char.ofNatAux, Char.toNat, UInt32.toNat]
  simp [BitVec.toNat_ofNatLt]

theorem charLower_toNat (c : Char) (h : isUpperRange c) :
    (charLower c).toNat = c.toNat + 32 := by
  unfold charLower
  rw [if_pos h]
  refine char_ofNat_toNat _ (Or.inl ?_)
  unfold isUpperRange at h
  omega

theorem charLower_of_not_upper (c : Char) (h : ¬ isUpperRange c) : charLower c = c := by
  unfold charLower
  rw [if_neg h]

/-- The output of `charLower` is never in the uppercase ranges it maps away. -/
theorem charLower_not_upper (c : Char) : ¬ isUpperRange (charLower c) := by
  by_cases h : isUpperRange c
  · have ht := charLower_toNat c h
    intro hu
    unfold isUpperRange at h hu
    omega
  · rw [charLower_of_not_upper c h]
    exact h

/-- Lowering a character twice is the same as lowering it once. -/
theorem charLower_idem (c : Char) : charLower (charLower c) = charLower c :=
  charLower_of_not_upper _ (charLower_not_upper c)

/-- Lowering a string twice is the same as lowering it once. -/
theorem pyLower_idem (s : String) : pyLower (pyLower s) = pyLower s := by
  simp only [pyLower, List.map_map]
  congr 1
  exact List.map_congr_left fun c _ => charLower_idem c

theorem flag_scan_length (cur : Bool) (rows : List (Bool × Bool)) :
    (flag_scan cur rows).length = rows.length := by
  induction rows generalizing cur with
  | nil => rfl
  | cons ev rest ih => simp [flag_scan, ih]

theorem flag_scan_getD (rows : List (Bool × Bool)) (cur : Bool) (k : ℕ)
    (hk : k < rows.length) :
    (flag_scan cur rows).getD k false = List.foldl flag_step cur (rows.take (k + 1)) := by
  induction rows generalizing cur k with
  | nil => simp at hk
  | cons ev rest ih =>
    cases k with
    | zero => simp [flag_scan]
    | succ k =>
      have hk' : k < rest.length := by simpa using hk
      simp only [flag_scan, List.getD_cons_succ, List.take_succ_cons, List.foldl_cons]
      exact ih (flag_step cur ev) k hk'

theorem flag_step_end (cur : Bool) (ev : Bool × Bool) (he : ev.2 = true) :
    flag_step cur ev = false := by
  simp [flag_step, he]

theorem flag_step_start (cur : Bool) (ev : Bool × Bool) (he : ev.2 = false)
    (hs : ev.1 = true) : flag_step cur ev = true := by
  simp [flag_step, he, hs]

theorem flag_step_keep_true (ev : Bool × Bool) (he : ev.2 = false) :
    flag_step true ev = true := by
  cases h : ev.1 <;> simp [flag_step, he, h]

theorem flag_scan_take_last (rows : List (Bool × Bool)) (k : ℕ) (hk : k < rows.length) :
    List.foldl flag_step false (rows.take (k + 1)) =
      flag_step (List.foldl flag_step false (rows.take k)) (rows.getD k (false, false)) := by
  rw [List.getD_eq_getElem _ _ hk, List.take_succ, List.getElem?_eq_getElem hk]
  rw [Option.toList_some, List.foldl_append, List.foldl_cons, List.foldl_nil]

theorem flag_scan_end_false (rows : List (Bool × Bool)) (i : ℕ) (hi : i < rows.length)
    (he : (rows.getD i (false, false)).2 = true) :
    (create_flagged_column rows).getD i false = false := by
  rw [create_flagged_column, flag_scan_getD rows false i hi, flag_scan_take_last rows i hi]
  exact flag_step_end _ _ he

theorem flag_scan_start_true (rows : List (Bool × Bool)) (i k : ℕ) (hik : i ≤ k)
    (hk : k < rows.length)
    (hs : (rows.getD i (false, false)).1 = true)
    (he : (rows.getD i (false, false)).2 = false)
    (hmid : ∀ j, i < j → j ≤ k → (rows.getD j (false, false)).2 = false) :
    (create_flagged_column rows).getD k false = true := by
  induction k, hik using Nat.le_induction with
  | base =>
    rw [create_flagged_column, flag_scan_getD rows false i hk, flag_scan_take_last rows i hk]
    exact flag_step_start _ _ he hs
  | succ k hik ih =>
    have hk' : k < rows.length := by omega
    have hprev : (create_flagged_column rows).getD k false = true :=
      ih hk' (fun j h1 h2 => hmid j h1 (by omega))
    rw [create_flagged_column, flag_scan_getD rows false (k + 1) hk,
        flag_scan_take_last rows (k + 1) hk]
    rw [create_flagged_column, flag_scan_getD rows false k hk'] at hprev
    rw [hprev]
    exact flag_step_keep_true _ (hmid (k + 1) (by omega) le_rfl)

theorem interval_flag_holds (sc ec : List String) (comments : List CommentVal) :
    interval_flag_spec sc ec comments (flag_column_from_comments sc ec comments) := by
  have key : ∀ j, j < comments.length →
      (comments.map fun c => (comment_marks_event sc c, comment_marks_event ec c)).getD
          j (false, false) =
        (comment_marks_event sc (comments.getD j .none),
         comment_marks_event ec (comments.getD j .none)) := by
    intro j hj
    rw [List.getD_eq_getElem _ _ (by simpa using hj), List.getElem_map,
        List.getD_eq_getElem _ _ hj]
  refine ⟨?_, ?_, ?_⟩
  · simp [flag_column_from_comments, create_flagged_column, flag_scan_length]
  · intro i hi hev
    refine flag_scan_end_false _ i (by simpa using hi) ?_
    rw [key i hi]
    exact hev
  · intro i k hik hk hs he hmid
    refine flag_scan_start_true _ i k hik (by simpa using hk) ?_ ?_ ?_
    · rw [key i (by omega)]
      exact hs
    · rw [key i (by omega)]
      exact he
    · intro j h1 h2
      rw [key j (by omega)]
      exact hmid j h1 h2

/- ------------------------------------------------------------------ -/
/- Claim theorems.                                                     -/
/- ------------------------------------------------------------------ -/

/-- C1: For every sequence of sounding rows scanned in depth order, the derived
interval flags (hammering, increased_rotation_rate, flushing) satisfy: if a row
carries an end code for a flag, the flag is false at that row even when the same
row also carries a start code for it; and the flag is true at every row from an
unmatched start row (inclusive) up to, and excluding, the next end row. -/
theorem interval_flags_start_end_semantics (comments : List CommentVal) :
    interval_flag_spec hammering_starts_codes hammering_ends_codes comments
      (create_intervals_from_comments comments).1 ∧
    interval_flag_spec increased_rotation_rate_starts_codes
      increased_rotation_rate_ends_codes comments
      (create_intervals_from_comments comments).2.1 ∧
    interval_flag_spec flushing_starts_codes flushing_ends_codes comments
      (create_intervals_from_comments comments).2.2 :=
  ⟨interval_flag_holds _ _ _, interval_flag_holds _ _ _, interval_flag_holds _ _ _⟩

/-- Witness for C1 on the concrete comment-code sequence `[11, missing, 16]`:
the hammering flag is on at the start row and the following row, and off at the
row carrying the end code 16. -/
theorem interval_flags_start_end_semantics_witness :
    (create_intervals_from_comments
        [CommentVal.num 11, CommentVal.none, CommentVal.num 16]).1.getD 0 false = true ∧
    (create_intervals_from_comments
        [CommentVal.num 11, CommentVal.none, CommentVal.num 16]).1.getD 1 false = true ∧
    (create_intervals_from_comments
        [CommentVal.num 11, CommentVal.none, CommentVal.num 16]).1.getD 2 false = false := by
  refine ⟨?_, ?_, ?_⟩
  · exact (interval_flags_start_end_semantics
        [CommentVal.num 11, CommentVal.none, CommentVal.num 16]).1.2.2 0 0
      (by decide) (by decide) (by decide) (by decide)
      (fun j h1 h2 => absurd (Nat.lt_of_lt_of_le h1 h2) (by decide))
  · exact (interval_flags_start_end_semantics
        [CommentVal.num 11, CommentVal.none, CommentVal.num 16]).1.2.2 0 1
      (by decide) (by decide) (by decide) (by decide)
      (fun j h1 h2 => by
        have : j = 1 := by omega
        subst this
        decide)
  · exact (interval_flags_start_end_semantics
        [CommentVal.num 11, CommentVal.none, CommentVal.num 16]).1.2.1 2
      (by decide) (by decide)

/-- C10: A start or end event for an interval flag is detected whenever any
configured flag code is a substring of the row's formatted comment-code string,
not only on exact equality; consequently the comment code 111, which is outside
every configured list but contains the hammering start code 11, still triggers
a hammering start event. -/
theorem comment_code_substring_event_detection :
    (∀ (target_codes : List String) (c : CommentVal),
      comment_marks_event target_codes c = true ↔
        ∃ tc ∈ target_codes, tc.toList <:+: (format_comment_value c).toList) ∧
    comment_marks_event hammering_starts_codes (CommentVal.num 111) = true ∧
    "111" ∉ hammering_starts_codes ∧
    (create_intervals_from_comments [CommentVal.num 111]).1 = [true] := by
  refine ⟨?_, by decide, by decide, by decide⟩
  intro tcs c
  simp [comment_marks_event, contains_sub, List.any_eq_true]

theorem except_bind_ok {ε α β : Type} (a : α) (f : α → Except ε β) :
    ((Except.ok a : Except ε α) >>= f) = f a := rfl

theorem get_async_ok (fetch : FetchOracle)
    (hok : ∀ u limit, ∃ d, fetch u limit = .ok d) (h : Option String) :
    ∃ od, (get_async fetch h).1 = .ok od := by
  cases h with
  | none => exact ⟨Option.none, rfl⟩
  | some href =>
    obtain ⟨d, hd⟩ := hok href Option.none
    obtain ⟨nr, nm, pl⟩ := d
    cases nr with
    | none => exact ⟨some ⟨Option.none, nm, pl⟩, by simp [get_async, get_async_doc, hd, Except.map]⟩
    | some r =>
      cases nm with
      | none => exact ⟨some ⟨some r, Option.none, pl⟩, by simp [get_async, get_async_doc, hd, Except.map]⟩
      | some m =>
        by_cases hrm : r < m
        · obtain ⟨d', hd'⟩ := hok href (some (m + 1))
          exact ⟨some d', by simp [get_async, get_async_doc, hd, hrm, hd', Except.map]⟩
        · exact ⟨some ⟨some r, some m, pl⟩, by simp [get_async, get_async_doc, hd, hrm, Except.map]⟩

/-- C2: For every sequence of optional URLs of length n on which every issued
request succeeds, the concurrent link resolver `get_href_list` returns a
sequence of exactly length n in which the document at position i is the
resolution of the URL at position i, and every position whose input is null
yields null with no request issued for it. -/
theorem get_href_list_order_and_none_preserved (fetch : FetchOracle)
    (href_list : List (Option String))
    (hok : ∀ u limit, ∃ d, fetch u limit = .ok d) :
    ∃ docs, get_href_list fetch href_list = .ok docs ∧
      docs.length = href_list.length ∧
      (∀ i, i < href_list.length →
        (get_async fetch (href_list.getD i Option.none)).1 =
          .ok (docs.getD i Option.none)) ∧
      (∀ i, i < href_list.length → href_list.getD i Option.none = Option.none →
        docs.getD i Option.none = Option.none ∧
        (get_async fetch (href_list.getD i Option.none)).2 = []) := by
  induction href_list with
  | nil =>
    exact ⟨[], rfl, rfl, fun i hi => absurd hi (by simp), fun i hi => absurd hi (by simp)⟩
  | cons h rest ih =>
    obtain ⟨docs, hdocs, hlen, hpt, hnone⟩ := ih
    obtain ⟨od, hod⟩ := get_async_ok fetch hok h
    refine ⟨od :: docs, ?_, by simp [hlen], ?_, ?_⟩
    · simp only [get_href_list, hod, hdocs]
    · intro i hi
      cases i with
      | zero => simpa using hod
      | succ i => simpa using hpt i (by simpa using hi)
    · intro i hi hnil
      cases i with
      | zero =>
        simp only [List.getD_cons_zero] at hnil
        subst hnil
        simp only [get_async] at hod
        refine ⟨?_, rfl⟩
        simp only [List.getD_cons_zero]
        exact (Except.ok.injEq _ _).mp hod.symm
      | succ i =>
        simp only [List.getD_cons_succ] at hnil ⊢
        exact hnone i (by simpa using hi) hnil

/-- Witness for C2: a concrete three-slot list with a null in the middle, on an
oracle where every request succeeds. -/
theorem get_href_list_order_and_none_preserved_witness :
    ∃ docs, get_href_list fetch_all_ok [some "a", Option.none, some "b"] = .ok docs ∧
      docs.length = [some "a", Option.none, some "b"].length ∧
      (∀ i, i < [some "a", Option.none, some "b"].length →
        (get_async fetch_all_ok ([some "a", Option.none, some "b"].getD i Option.none)).1 =
          .ok (docs.getD i Option.none)) ∧
      (∀ i, i < [some "a", Option.none, some "b"].length →
        [some "a", Option.none, some "b"].getD i Option.none = Option.none →
        docs.getD i Option.none = Option.none ∧
        (get_async fetch_all_ok
          ([some "a", Option.none, some "b"].getD i Option.none)).2 = []) :=
  get_href_list_order_and_none_preserved fetch_all_ok
    [some "a", Option.none, some "b"] (fun _ _ => ⟨doc0, rfl⟩)

/-- C3 counterexample: on the concrete oracle where only the URL bad times
out, `get_href_list [some "good", some "bad"]` evaluates to the timeout error
rather than to a list with one entry per position, although the sibling slot
alone resolves fine; so a single failing slot discards the sibling results. -/
theorem get_href_list_failure_not_isolated :
    get_href_list fetch_one_bad [some "good", some "bad"] =
      Except.error FetchErr.timeout ∧
    get_href_list fetch_one_bad [some "good"] = Except.ok [some doc0] := by
  constructor <;> rfl

/-- C3 amended: if the resolution of any entry of the list fails, the whole
`get_href_list` call fails with an error (the exception propagates out of
`asyncio.gather`); no per-item error value is produced and sibling results
are discarded. -/
theorem get_href_list_error_propagates (fetch : FetchOracle)
    (href_list : List (Option String)) (h : Option String) (e : FetchErr)
    (hmem : h ∈ href_list) (herr : (get_async fetch h).1 = .error e) :
    ∃ e', get_href_list fetch href_list = Except.error e' := by
  induction href_list with
  | nil => cases hmem
  | cons a rest ih =>
    cases hmem with
    | head =>
      exact ⟨e, by simp only [get_href_list, herr]⟩
    | tail _ hmem' =>
      cases hfa : (get_async fetch a).1 with
      | error ea => exact ⟨ea, by simp only [get_href_list, hfa]⟩
      | ok oa =>
        obtain ⟨e', he'⟩ := ih hmem'
        exact ⟨e', by simp only [get_href_list, hfa, he']⟩

/-- Witness for C3's amended statement at the concrete failing oracle. -/
theorem get_href_list_error_propagates_witness :
    ∃ e', get_href_list fetch_one_bad [some "good", some "bad"] =
      Except.error e' :=
  get_href_list_error_propagates fetch_one_bad [some "good", some "bad"]
    (some "bad") FetchErr.timeout (by decide) rfl

/-- C6: `_get_sample_depth` returns depth_top when depth_top > depth_base and
depth_base = 0; depth_top when depth_base is null and depth_top is not; the
common value when depth_top = depth_base; the midpoint otherwise; and NaN
without raising when the inputs are (distinct) non-numeric text values,
whose midpoint computation raises the caught TypeError. In particular
(5, 0) resolves to 5, (3, null) to 3, (4, 4) to 4 and (2, 6) to 4. -/
theorem sample_depth_resolution_cases :
    (∀ t b : ℚ, b < t → b = 0 →
      _get_sample_depth (.num t) (.num b) = .ok (.num t)) ∧
    (∀ t : ℚ, _get_sample_depth (.num t) .nan = .ok (.num t)) ∧
    (∀ t : ℚ, _get_sample_depth (.num t) (.num t) = .ok (.num t)) ∧
    (∀ t b : ℚ, ¬(b < t ∧ b = 0) → t ≠ b →
      _get_sample_depth (.num t) (.num b) = .ok (.num ((t + b) / 2))) ∧
    (∀ s1 s2 : String, s1 ≠ s2 →
      _get_sample_depth (.str s1) (.str s2) = .ok .nan) ∧
    (∀ s : String, _get_sample_depth (.str s) (.str s) = .ok (.str s)) ∧
    _get_sample_depth (.num 5) (.num 0) = .ok (.num 5) ∧
    _get_sample_depth (.num 3) .nan = .ok (.num 3) ∧
    _get_sample_depth (.num 4) (.num 4) = .ok (.num 4) ∧
    _get_sample_depth (.num 2) (.num 6) = .ok (.num 4) := by
  have hmid : ∀ t b : ℚ, _get_sample_depth (.num t) (.num b) =
      if decide (b < t) && decide (b = 0) then .ok (.num t)
      else if decide (t = b) then .ok (.num t)
      else .ok (.num ((t + b) / 2)) := by
    intro t b
    simp only [_get_sample_depth, pyGT, except_bind_ok, pyEq, pyIsNA, pyAdd, pyHalf,
      Bool.false_and, Bool.and_false, if_false, Bool.not_true, except_bind_ok]
    rfl
  refine ⟨?_, ?_, ?_, ?_, ?_, ?_, ?_, ?_, ?_, ?_⟩
  · intro t b hlt hb0
    subst hb0
    rw [hmid]
    simp [hlt]
  · intro t
    simp only [_get_sample_depth, pyGT, except_bind_ok, pyEq, pyIsNA]
    rfl
  · intro t
    rw [hmid]
    simp
  · intro t b hcond hne
    rw [hmid]
    have h1 : (decide (b < t) && decide (b = 0)) = false := by
      by_cases hb : b < t
      · have : ¬ b = 0 := fun hh => hcond ⟨hb, hh⟩
        simp [this]
      · simp [hb]
    rw [h1]
    simp [hne]
  · intro s1 s2 hne
    simp only [_get_sample_depth, pyGT, except_bind_ok, pyEq, pyIsNA, pyAdd, pyHalf,
      Bool.and_false, if_false]
    simp [hne]
    rfl
  · intro s
    simp only [_get_sample_depth, pyGT, except_bind_ok, pyEq, pyIsNA, pyAdd, pyHalf,
      Bool.and_false, if_false]
    simp
    rfl
  · rw [hmid]
    norm_num
  · simp only [_get_sample_depth, pyGT, except_bind_ok, pyEq, pyIsNA]
    rfl
  · rw [hmid]
    norm_num
  · rw [hmid]
    norm_num

/-- Witness for C6 at the concrete pair (5, 0). -/
theorem sample_depth_resolution_cases_witness :
    _get_sample_depth (.num 5) (.num 0) = .ok (.num 5) :=
  sample_depth_resolution_cases.1 5 0 (by norm_num) rfl

theorem rename_bh_col_of_find (c : String) (p : String × String)
    (hf : COLUMN_MAPPER_BH.find? (fun q => q.1 == c) = some p) :
    rename_bh_col c = p.2 := by
  unfold rename_bh_col
  rw [hf]

theorem rename_bh_col_of_none (c : String)
    (hf : COLUMN_MAPPER_BH.find? (fun q => q.1 == c) = Option.none) :
    rename_bh_col c = c := by
  unfold rename_bh_col
  rw [hf]

/-- No lower-cased string equals the mixed-case label `observasjonKode`. -/
theorem pyLower_ne_observasjonKode (s : String) : pyLower s ≠ "observasjonKode" := by
  intro hs
  have hdata : s.data.map charLower = "observasjonKode".data := congrArg String.data hs
  have hKmem : 'K' ∈ s.data.map charLower := by
    rw [hdata]
    decide
  obtain ⟨c, _, hc⟩ := List.mem_map.mp hKmem
  have hup := charLower_not_upper c
  rw [hc] at hup
  exact hup (by decide)

/-- Every mapper value is lower-case, is not itself a mapper key, and differs
from `observasjonKode`. -/
theorem mapper_values_stable : ∀ p ∈ COLUMN_MAPPER_BH,
    pyLower p.2 = p.2 ∧ rename_bh_col p.2 = p.2 ∧ p.2 ≠ "observasjonKode" := by
  decide

/-- A normalized column label (lower-cased then renamed) is unchanged by a
second lower-casing and a second renaming, and never equals
`observasjonKode`. -/
theorem normalized_label_stable (x : String) :
    pyLower (rename_bh_col (pyLower x)) = rename_bh_col (pyLower x) ∧
    rename_bh_col (rename_bh_col (pyLower x)) = rename_bh_col (pyLower x) ∧
    rename_bh_col (pyLower x) ≠ "observasjonKode" := by
  cases hf : COLUMN_MAPPER_BH.find? (fun q => q.1 == pyLower x) with
  | none =>
    rw [rename_bh_col_of_none _ hf]
    exact ⟨pyLower_idem x, rename_bh_col_of_none _ hf, pyLower_ne_observasjonKode x⟩
  | some p =>
    have hp : p ∈ COLUMN_MAPPER_BH := List.mem_of_find?_eq_some hf
    obtain ⟨h1, h2, h3⟩ := mapper_values_stable p hp
    rw [rename_bh_col_of_find _ _ hf]
    exact ⟨h1, h2, h3⟩

theorem renormalize_core (A : List String)
    (hd : "depth" ∈ (A.map pyLower).map rename_bh_col) :
    normalize_sounding_columns ((A.map pyLower).map rename_bh_col) =
      .ok ((A.map pyLower).map rename_bh_col ++ ["comment_code"]) := by
  set M := (A.map pyLower).map rename_bh_col with hM
  have hcomp : M = A.map (rename_bh_col ∘ pyLower) := by
    rw [hM, List.map_map]
  have hobs : "observasjonKode" ∉ M := by
    rw [hcomp]
    intro hmem
    obtain ⟨x, _, hx⟩ := List.mem_map.mp hmem
    exact (normalized_label_stable x).2.2 hx
  have hpy : M.map pyLower = M := by
    conv_lhs => rw [hcomp, List.map_map]
    rw [hcomp]
    exact List.map_congr_left fun x _ => (normalized_label_stable x).1
  have hrn : M.map rename_bh_col = M := by
    conv_lhs => rw [hcomp, List.map_map]
    rw [hcomp]
    exact List.map_congr_left fun x _ => (normalized_label_stable x).2.1
  have e1 : pyLower "observasjonKode" = "observasjonkode" := by decide
  have e2 : rename_bh_col "observasjonkode" = "comment_code" := by decide
  simp only [normalize_sounding_columns]
  rw [if_neg hobs, List.map_append, hpy, List.map_append, hrn]
  simp only [List.map_cons, List.map_nil, e1, e2]
  rw [if_pos (List.mem_append_left _ hd)]

theorem normalize_unfold (cols : List String) :
    normalize_sounding_columns cols =
      (if "depth" ∈ ((if "observasjonKode" ∈ cols then cols
          else cols ++ ["observasjonKode"]).map pyLower).map rename_bh_col
        then .ok (((if "observasjonKode" ∈ cols then cols
          else cols ++ ["observasjonKode"]).map pyLower).map rename_bh_col)
        else .error ()) := rfl

/-- C9 amended: applying the normalization transformation to an
already-normalized column set renames no existing label a second time (every
existing label is kept unchanged, in place), but the comment-code defaulting
step re-adds `observasjonKode` — which lower-casing and renaming turn into a
second `comment_code` label — so the column set gains exactly one duplicate
`comment_code` label instead of being left unchanged. -/
theorem normalize_columns_renormalize (raw C : List String)
    (h : normalize_sounding_columns raw = .ok C) :
    normalize_sounding_columns C = .ok (C ++ ["comment_code"]) ∧
    "comment_code" ∈ C := by
  rw [normalize_unfold raw] at h
  by_cases hd : "depth" ∈ ((if "observasjonKode" ∈ raw then raw
      else raw ++ ["observasjonKode"]).map pyLower).map rename_bh_col
  · rw [if_pos hd] at h
    have hC := (Except.ok.injEq _ _).mp h
    subst hC
    refine ⟨renormalize_core _ hd, ?_⟩
    have hobsA : "observasjonKode" ∈ (if "observasjonKode" ∈ raw then raw
        else raw ++ ["observasjonKode"]) := by
      by_cases hr : "observasjonKode" ∈ raw
      · rwa [if_pos hr]
      · rw [if_neg hr]
        exact List.mem_append_right _ (by decide)
    refine List.mem_map.mpr ⟨pyLower "observasjonKode",
      List.mem_map.mpr ⟨_, hobsA, rfl⟩, by decide⟩
  · rw [if_neg hd] at h
    exact absurd h (by simp)

/-- Witness for C9's amended statement on the concrete normalized column set
produced from a raw document with only a `boretlengde` column. -/
theorem normalize_columns_renormalize_witness :
    normalize_sounding_columns ["depth", "comment_code"] =
      .ok (["depth", "comment_code"] ++ ["comment_code"]) ∧
    "comment_code" ∈ ["depth", "comment_code"] :=
  normalize_columns_renormalize ["boretlengde"] ["depth", "comment_code"] rfl

/-- C9 counterexample: normalizing the raw column set `["boretlengde"]` gives
the normalized set `["depth", "comment_code"]`; re-running the normalization
on that output yields `["depth", "comment_code", "comment_code"]`, a column
set with duplicate labels, so re-normalization of an already-normalized table
does not leave the column set unchanged. -/
theorem normalize_columns_not_idempotent :
    normalize_sounding_columns ["boretlengde"] = .ok ["depth", "comment_code"] ∧
    normalize_sounding_columns ["depth", "comment_code"] =
      .ok ["depth", "comment_code", "comment_code"] ∧
    ¬ (["depth", "comment_code", "comment_code"] : List String).Nodup := by
  refine ⟨rfl, rfl, by decide⟩

/-- C4 (evaluation of the code at the failing input): in the per-document loop
of `get_soundings`, when the first document is malformed (no column renames to
depth, so the try block raises a caught KeyError at `sort_values`), the
subsequent flag assignment reads the never-assigned loop variable `new_elem`
and a NameError propagates out of the normalization; and when a malformed
document follows a well-formed one, the malformed slot silently receives a
stale duplicate of the previous document's table. -/
theorem get_soundings_malformed_doc_behavior :
    get_soundings_tables "tot" [some ⟨["foo"], 1⟩] = .error .nameError ∧
    get_soundings_tables "tot" [some ⟨["boretlengde"], 1⟩, some ⟨["foo"], 1⟩] =
      .ok [["depth", "comment_code", "hammering", "increased_rotation_rate", "flushing"],
           ["depth", "comment_code", "hammering", "increased_rotation_rate", "flushing"]] := by
  refine ⟨rfl, rfl⟩

theorem classify_unfold (raws : List String) :
    classify_layer_composition raws =
      (if ((raws.map pyLower).dedup.all fun vv => vv == "nan" || vv == "none") then "nothing"
       else if ((raws.map pyLower).dedup.any fun xx =>
           QCL_KWD.any fun kwd => contains_sub kwd.toList (pyLower xx).toList)
         then "quick_clay"
       else "other") := rfl

/-- C7: For every non-empty collection of raw layer-composition text values,
the soil classifier (the lower-casing `get_samples` applies composed with
`_clf_aggr`) returns nothing iff every value is, case-folded, the literal
`"nan"` or `"none"`; otherwise quick_clay iff some value contains a configured
quick-clay keyword case-insensitively; otherwise other. In particular
`["Leire", "nan", "Kvikkleire"]` classifies as quick_clay, `["none", "nan"]`
as nothing, and `["Sand", "Grus"]` as other. -/
theorem layer_composition_classification_cases (raws : List String)
    (_hne : raws ≠ []) :
    (classify_layer_composition raws = "nothing" ↔
      ∀ r ∈ raws, pyLower r = "nan" ∨ pyLower r = "none") ∧
    (¬(∀ r ∈ raws, pyLower r = "nan" ∨ pyLower r = "none") →
      (classify_layer_composition raws = "quick_clay" ↔
        ∃ r ∈ raws, ∃ kwd ∈ QCL_KWD, kwd.toList <:+: (pyLower r).toList)) ∧
    (¬(∀ r ∈ raws, pyLower r = "nan" ∨ pyLower r = "none") →
      ¬(∃ r ∈ raws, ∃ kwd ∈ QCL_KWD, kwd.toList <:+: (pyLower r).toList) →
      classify_layer_composition raws = "other") ∧
    classify_layer_composition ["Leire", "nan", "Kvikkleire"] = "quick_clay" ∧
    classify_layer_composition ["none", "nan"] = "nothing" ∧
    classify_layer_composition ["Sand", "Grus"] = "other" := by
  have hall : ((raws.map pyLower).dedup.all fun vv => vv == "nan" || vv == "none") = true ↔
      ∀ r ∈ raws, pyLower r = "nan" ∨ pyLower r = "none" := by
    simp only [List.all_eq_true, List.mem_dedup, List.mem_map]
    constructor
    · intro hh r hr
      have := hh (pyLower r) ⟨r, hr, rfl⟩
      simpa using this
    · rintro hh vv ⟨r, hr, rfl⟩
      simpa using hh r hr
  have hany : ((raws.map pyLower).dedup.any fun xx =>
        QCL_KWD.any fun kwd => contains_sub kwd.toList (pyLower xx).toList) = true ↔
      ∃ r ∈ raws, ∃ kwd ∈ QCL_KWD, kwd.toList <:+: (pyLower r).toList := by
    simp only [List.any_eq_true, List.mem_dedup, List.mem_map, contains_sub,
      decide_eq_true_eq]
    constructor
    · rintro ⟨xx, ⟨r, hr, rfl⟩, kwd, hk, hinf⟩
      rw [pyLower_idem] at hinf
      exact ⟨r, hr, kwd, hk, hinf⟩
    · rintro ⟨r, hr, kwd, hk, hinf⟩
      exact ⟨pyLower r, ⟨r, hr, rfl⟩, kwd, hk, by rwa [pyLower_idem]⟩
  refine ⟨?_, ?_, ?_, rfl, rfl, rfl⟩
  · by_cases hA : ((raws.map pyLower).dedup.all fun vv => vv == "nan" || vv == "none") = true
    · exact ⟨fun _ => hall.mp hA, fun _ => by rw [classify_unfold, if_pos hA]⟩
    · constructor
      · intro hcl
        rw [classify_unfold, if_neg hA] at hcl
        exfalso
        revert hcl
        split
        · decide
        · decide
      · intro hforall
        exact absurd (hall.mpr hforall) hA
  · intro hnotall
    have hA : ¬ ((raws.map pyLower).dedup.all fun vv => vv == "nan" || vv == "none") = true :=
      fun hA => hnotall (hall.mp hA)
    by_cases hQ : ((raws.map pyLower).dedup.any fun xx =>
        QCL_KWD.any fun kwd => contains_sub kwd.toList (pyLower xx).toList) = true
    · exact ⟨fun _ => hany.mp hQ, fun _ => by rw [classify_unfold, if_neg hA, if_pos hQ]⟩
    · constructor
      · intro hcl
        rw [classify_unfold, if_neg hA, if_neg hQ] at hcl
        exact absurd hcl (by decide)
      · intro hex
        exact absurd (hany.mpr hex) hQ
  · intro hnotall hnotex
    have hA : ¬ ((raws.map pyLower).dedup.all fun vv => vv == "nan" || vv == "none") = true :=
      fun hA => hnotall (hall.mp hA)
    have hQ : ¬ ((raws.map pyLower).dedup.any fun xx =>
        QCL_KWD.any fun kwd => contains_sub kwd.toList (pyLower xx).toList) = true :=
      fun hQ => hnotex (hany.mp hQ)
    rw [classify_unfold, if_neg hA, if_neg hQ]

/-- Witness for C7 on the concrete input list containing a quick-clay
keyword. -/
theorem layer_composition_classification_cases_witness :
    classify_layer_composition ["Leire", "nan", "Kvikkleire"] = "quick_clay" :=
  (layer_composition_classification_cases ["Leire", "nan", "Kvikkleire"]
    (by decide)).2.2.2.1

theorem get_collection_loop_chain (fetch : PageOracle) :
    ∀ (fuel : ℕ) (url : String) (first : Bool) (out : List String),
      get_collection_loop fetch fuel url first = some out →
      ∃ pages : List Page, IsPageChain fetch url first pages ∧
        out = (pages.map Page.features).flatten := by
  intro fuel
  induction fuel with
  | zero => intro url first out h; cases h
  | succ fuel ih =>
    intro url first out h
    simp only [get_collection_loop] at h
    cases hn : next_href (fetch url first) with
    | none =>
      rw [hn] at h
      dsimp only at h
      obtain rfl := (Option.some.injEq _ _).mp h
      exact ⟨[fetch url first], ⟨rfl, hn⟩, by simp⟩
    | some u =>
      rw [hn] at h
      dsimp only at h
      cases hrec : get_collection_loop fetch fuel u false with
      | none => rw [hrec] at h; cases h
      | some fs =>
        rw [hrec] at h
        dsimp only at h
        obtain rfl := (Option.some.injEq _ _).mp h
        obtain ⟨pages, hchain, hout⟩ := ih u false fs hrec
        refine ⟨fetch url first :: pages, ?_, ?_⟩
        · cases pages with
          | nil => exact absurd hchain (by simp [IsPageChain])
          | cons q qs => exact ⟨rfl, u, hn, hchain⟩
        · simp [hout]

/-- C8: whenever the paginated fetcher terminates, its requests form a chain:
the first request carries the query parameters, every follow-up request is
issued against the previous response's next link with no parameters, the
chain stops at the first response with no next link, and the result is the
concatenation of all pages' feature lists in request order; in particular,
when every page carries zero features the result is the empty list (returned,
not raised). -/
theorem get_collection_pagination_chain (fetch : PageOracle) (fuel : ℕ)
    (url : String) (out : List String)
    (h : get_collection fetch fuel url = some out) :
    ∃ pages : List Page, IsPageChain fetch url true pages ∧
      out = (pages.map Page.features).flatten ∧
      ((∀ p ∈ pages, p.features = []) → out = []) := by
  obtain ⟨pages, hchain, hout⟩ := get_collection_loop_chain fetch fuel url true out h
  refine ⟨pages, hchain, hout, ?_⟩
  intro hall
  rw [hout, List.flatten_eq_nil_iff]
  intro lst hlst
  obtain ⟨p, hp, rfl⟩ := List.mem_map.mp hlst
  exact hall p hp

/-- Witness for C8 on a concrete single-page oracle with zero features. -/
theorem get_collection_pagination_chain_witness :
    ∃ pages : List Page, IsPageChain page_oracle_empty "start" true pages ∧
      ([] : List String) = (pages.map Page.features).flatten ∧
      ((∀ p ∈ pages, p.features = []) → ([] : List String) = []) :=
  get_collection_pagination_chain page_oracle_empty 1 "start" [] rfl

theorem split_bbox_length (bbox : BBox) (n_rows n_cols : ℕ) :
    (split_bbox bbox n_rows n_cols).length = n_cols * n_rows := by
  simp only [split_bbox, List.length_flatMap, Function.comp_def, List.length_map,
    List.length_range, List.map_const', List.sum_replicate, smul_eq_mul, Nat.mul_comm]

theorem mem_split_bbox (bbox : BBox) (n_rows n_cols : ℕ) (cell : BBox) :
    cell ∈ split_bbox bbox n_rows n_cols ↔
      ∃ i : ℕ, i < n_cols ∧ ∃ j : ℕ, j < n_rows ∧
        cell = ⟨bbox.minx + (i : ℚ) * ((bbox.maxx - bbox.minx) / n_cols),
                bbox.miny + (j : ℚ) * ((bbox.maxy - bbox.miny) / n_rows),
                bbox.minx + (i : ℚ) * ((bbox.maxx - bbox.minx) / n_cols) +
                  (bbox.maxx - bbox.minx) / n_cols,
                bbox.miny + (j : ℚ) * ((bbox.maxy - bbox.miny) / n_rows) +
                  (bbox.maxy - bbox.miny) / n_rows⟩ := by
  simp only [split_bbox, List.mem_flatMap, List.mem_map, List.mem_range]
  constructor
  · rintro ⟨i, hi, j, hj, rfl⟩
    exact ⟨i, hi, j, hj, rfl⟩
  · rintro ⟨i, hi, j, hj, rfl⟩
    exact ⟨i, hi, j, hj, rfl⟩

theorem cell_dim_lt (W m : ℚ) (hm : 0 < m) (_hW : 0 < W) :
    W / (((max ⌊W / m⌋ 1).toNat : ℕ) : ℚ) < 2 * m := by
  set k := ⌊W / m⌋ with hk
  have h2 : W / m < (k : ℚ) + 1 := Int.lt_floor_add_one _
  have hWlt : W < ((k : ℚ) + 1) * m := by
    rw [div_lt_iff₀ hm] at h2
    linarith
  by_cases hk1 : 1 ≤ k
  · have hn : (((max k 1).toNat : ℕ) : ℚ) = (k : ℚ) := by
      rw [max_eq_left hk1]
      exact_mod_cast Int.toNat_of_nonneg (by omega)
    rw [hn]
    have hkQ : (1 : ℚ) ≤ (k : ℚ) := by exact_mod_cast hk1
    rw [div_lt_iff₀ (by linarith : (0 : ℚ) < (k : ℚ))]
    nlinarith
  · have hn : (((max k 1).toNat : ℕ) : ℚ) = 1 := by
      rw [max_eq_right (by omega : k ≤ 1)]
      norm_num
    rw [hn, div_one]
    have hkQ : (k : ℚ) + 1 ≤ 1 := by exact_mod_cast (by omega : k + 1 ≤ 1)
    nlinarith

theorem split_bbox_cell_dims (bbox : BBox) (n_rows n_cols : ℕ) (cell : BBox)
    (h : cell ∈ split_bbox bbox n_rows n_cols) :
    cell.maxx - cell.minx = (bbox.maxx - bbox.minx) / (n_cols : ℚ) ∧
    cell.maxy - cell.miny = (bbox.maxy - bbox.miny) / (n_rows : ℚ) := by
  obtain ⟨i, hi, j, hj, rfl⟩ := (mem_split_bbox bbox n_rows n_cols cell).mp h
  constructor <;> dsimp <;> ring

theorem cover_interval (a b : ℚ) (n : ℕ) (hn : 1 ≤ n) (hab : a < b) (x : ℚ) :
    (a ≤ x ∧ x ≤ b) ↔
      ∃ i, i < n ∧ a + i * ((b - a) / n) ≤ x ∧
        x ≤ a + i * ((b - a) / n) + (b - a) / n := by
  have hnQ : (0 : ℚ) < (n : ℚ) := by exact_mod_cast hn
  have hw : 0 < (b - a) / n := div_pos (by linarith) hnQ
  set w := (b - a) / n with hwdef
  have hnw : (n : ℚ) * w = b - a := by
    rw [hwdef]
    field_simp
  constructor
  · rintro ⟨hax, hxb⟩
    have h0 : 0 ≤ ⌊(x - a) / w⌋ := Int.floor_nonneg.mpr (div_nonneg (by linarith) hw.le)
    by_cases hfl : ⌊(x - a) / w⌋ ≤ (n : ℤ) - 1
    · refine ⟨(⌊(x - a) / w⌋).toNat, ?_, ?_, ?_⟩
      · omega
      · have hcast : (((⌊(x - a) / w⌋).toNat : ℕ) : ℚ) = ((⌊(x - a) / w⌋ : ℤ) : ℚ) := by
          exact_mod_cast Int.toNat_of_nonneg h0
        rw [hcast]
        have hle : ((⌊(x - a) / w⌋ : ℤ) : ℚ) ≤ (x - a) / w := Int.floor_le _
        have hmul := mul_le_mul_of_nonneg_right hle hw.le
        rw [div_mul_cancel₀ _ (ne_of_gt hw)] at hmul
        linarith
      · have hcast : (((⌊(x - a) / w⌋).toNat : ℕ) : ℚ) = ((⌊(x - a) / w⌋ : ℤ) : ℚ) := by
          exact_mod_cast Int.toNat_of_nonneg h0
        rw [hcast]
        have hlt : (x - a) / w < ((⌊(x - a) / w⌋ : ℤ) : ℚ) + 1 := Int.lt_floor_add_one _
        have hmul := mul_lt_mul_of_pos_right hlt hw
        rw [div_mul_cancel₀ _ (ne_of_gt hw)] at hmul
        linarith
    · have hge : (n : ℚ) ≤ (x - a) / w := by
        have h1 : ((n : ℤ) : ℚ) ≤ ((⌊(x - a) / w⌋ : ℤ) : ℚ) := by
          exact_mod_cast (by omega : (n : ℤ) ≤ ⌊(x - a) / w⌋)
        have h2 : ((⌊(x - a) / w⌋ : ℤ) : ℚ) ≤ (x - a) / w := Int.floor_le _
        calc ((n : ℕ) : ℚ) = ((n : ℤ) : ℚ) := by norm_cast
          _ ≤ (x - a) / w := le_trans h1 h2
      have hxb' : x = b := by
        have h1 := mul_le_mul_of_nonneg_right hge hw.le
        rw [div_mul_cancel₀ _ (ne_of_gt hw)] at h1
        have : b ≤ x := by linarith [hnw]
        linarith
      have hcast : (((n - 1 : ℕ) : ℕ) : ℚ) = (n : ℚ) - 1 := by
        have h1n : (1 : ℕ) ≤ n := hn
        push_cast [Nat.cast_sub h1n]
        ring
      refine ⟨n - 1, by omega, ?_, ?_⟩
      · rw [hcast, hxb']
        nlinarith [hnw, hw]
      · rw [hcast, hxb']
        nlinarith [hnw]
  · rintro ⟨i, hin, h1, h2⟩
    have hi0 : (0 : ℚ) ≤ (i : ℚ) := by positivity
    have hiw : (0 : ℚ) ≤ (i : ℚ) * w := mul_nonneg hi0 hw.le
    constructor
    · linarith
    · have hi1 : ((i : ℚ) + 1) ≤ (n : ℚ) := by exact_mod_cast hin
      have hmul : ((i : ℚ) + 1) * w ≤ (n : ℚ) * w := mul_le_mul_of_nonneg_right hi1 hw.le
      rw [hnw] at hmul
      nlinarith

/-- C5 amended: the big-area assembler partitions the box into a grid of
n_cols times n_rows equal cells with the dimensions obtained by floor (not
ceiling) division clamped below by 1; the union of the cells covers exactly
the original box, and every cell's width and height are less than twice
max_query_extent — but not necessarily at most max_query_extent. -/
theorem split_grid_cover_and_bound (bounds : BBox) (m : ℚ)
    (hx : bounds.minx < bounds.maxx) (hy : bounds.miny < bounds.maxy) (hm : 0 < m) :
    (get_data_big_areas_cells bounds m).length =
      (big_area_dims bounds m).1 * (big_area_dims bounds m).2 ∧
    (∀ cell ∈ get_data_big_areas_cells bounds m,
      cell.maxx - cell.minx =
        (bounds.maxx - bounds.minx) / ((big_area_dims bounds m).1 : ℚ) ∧
      cell.maxy - cell.miny =
        (bounds.maxy - bounds.miny) / ((big_area_dims bounds m).2 : ℚ) ∧
      cell.maxx - cell.minx < 2 * m ∧ cell.maxy - cell.miny < 2 * m) ∧
    (∀ x y : ℚ,
      (bounds.minx ≤ x ∧ x ≤ bounds.maxx ∧ bounds.miny ≤ y ∧ y ≤ bounds.maxy) ↔
      ∃ cell ∈ get_data_big_areas_cells bounds m,
        cell.minx ≤ x ∧ x ≤ cell.maxx ∧ cell.miny ≤ y ∧ y ≤ cell.maxy) := by
  have hW : (0 : ℚ) < bounds.maxx - bounds.minx := by linarith
  have hH : (0 : ℚ) < bounds.maxy - bounds.miny := by linarith
  have hwidth := cell_dim_lt (bounds.maxx - bounds.minx) m hm hW
  have hheight := cell_dim_lt (bounds.maxy - bounds.miny) m hm hH
  have hnc1 : 1 ≤ (big_area_dims bounds m).1 := by
    have h1 : (1 : ℤ) ≤ max ⌊(bounds.maxx - bounds.minx) / m⌋ 1 := le_max_right _ _
    simp only [big_area_dims]
    omega
  have hnr1 : 1 ≤ (big_area_dims bounds m).2 := by
    have h1 : (1 : ℤ) ≤ max ⌊(bounds.maxy - bounds.miny) / m⌋ 1 := le_max_right _ _
    simp only [big_area_dims]
    omega
  refine ⟨split_bbox_length bounds _ _, ?_, ?_⟩
  · intro cell hcell
    obtain hdims := split_bbox_cell_dims bounds (big_area_dims bounds m).2
      (big_area_dims bounds m).1 cell hcell
    refine ⟨hdims.1, hdims.2, ?_, ?_⟩
    · rw [hdims.1]
      exact hwidth
    · rw [hdims.2]
      exact hheight
  · intro x y
    constructor
    · rintro ⟨h1, h2, h3, h4⟩
      obtain ⟨i, hi, hx1, hx2⟩ :=
        (cover_interval bounds.minx bounds.maxx (big_area_dims bounds m).1 hnc1 hx x).mp ⟨h1, h2⟩
      obtain ⟨j, hj, hy1, hy2⟩ :=
        (cover_interval bounds.miny bounds.maxy (big_area_dims bounds m).2 hnr1 hy y).mp ⟨h3, h4⟩
      exact ⟨_, (mem_split_bbox bounds (big_area_dims bounds m).2
        (big_area_dims bounds m).1 _).mpr ⟨i, hi, j, hj, rfl⟩, hx1, hx2, hy1, hy2⟩
    · rintro ⟨cell, hcell, hc1, hc2, hc3, hc4⟩
      obtain ⟨i, hi, j, hj, rfl⟩ :=
        (mem_split_bbox bounds (big_area_dims bounds m).2 (big_area_dims bounds m).1 cell).mp hcell
      have hxx := (cover_interval bounds.minx bounds.maxx
        (big_area_dims bounds m).1 hnc1 hx x).mpr ⟨i, hi, hc1, hc2⟩
      have hyy := (cover_interval bounds.miny bounds.maxy
        (big_area_dims bounds m).2 hnr1 hy y).mpr ⟨j, hj, hc3, hc4⟩
      exact ⟨hxx.1, hxx.2, hyy.1, hyy.2⟩

/-- Witness for C5's amended statement at the concrete box (0, 0, 2500, 1000)
with max_query_extent 2000. -/
theorem split_grid_cover_and_bound_witness :
    (get_data_big_areas_cells ⟨0, 0, 2500, 1000⟩ 2000).length =
      (big_area_dims ⟨0, 0, 2500, 1000⟩ 2000).1 *
        (big_area_dims ⟨0, 0, 2500, 1000⟩ 2000).2 :=
  (split_grid_cover_and_bound ⟨0, 0, 2500, 1000⟩ 2000
    (by norm_num) (by norm_num) (by norm_num)).1

/-- C5 counterexample: for the box (0, 0, 2500, 1000) and max_query_extent
2000, the box width 2500 exceeds the limit, yet floor division makes the grid
a single cell — the whole box — whose width 2500 still exceeds
max_query_extent; so not every cell is within max_query_extent per axis. -/
theorem split_grid_cell_exceeds_max_extent :
    (⟨0, 0, 2500, 1000⟩ : BBox).maxx - (⟨0, 0, 2500, 1000⟩ : BBox).minx > 2000 ∧
    get_data_big_areas_cells ⟨0, 0, 2500, 1000⟩ 2000 = [⟨0, 0, 2500, 1000⟩] ∧
    ¬ (∀ cell ∈ get_data_big_areas_cells ⟨0, 0, 2500, 1000⟩ 2000,
        cell.maxx - cell.minx ≤ 2000 ∧ cell.maxy - cell.miny ≤ 2000) := by
  have hdims : big_area_dims ⟨0, 0, 2500, 1000⟩ 2000 = (1, 1) := by
    unfold big_area_dims
    norm_num
  have hcells : get_data_big_areas_cells ⟨0, 0, 2500, 1000⟩ 2000 =
      [⟨0, 0, 2500, 1000⟩] := by
    unfold get_data_big_areas_cells
    rw [hdims]
    unfold split_bbox
    simp only [List.range_succ, List.range_zero, List.nil_append, List.flatMap_cons,
      List.flatMap_nil, List.map_cons, List.map_nil, List.append_nil]
    norm_num [List.cons.injEq, BBox.mk.injEq]
  refine ⟨by norm_num, hcells, ?_⟩
  intro hall
  have := hall ⟨0, 0, 2500, 1000⟩ (by rw [hcells]; exact List.mem_singleton.mpr rfl)
  norm_num at this
